import Mathlib

/-!
Verification of the `bhv` behavior-tree library.

Shallow embedding of the library's two execution models:

* the poll model (`src/core.rs`, `src/composite.rs`, `src/decor.rs`,
  `src/adapt.rs`, and the draft variant `src/old_impl/*`): nodes expose
  `update(&mut ctx) -> Status` and `reset(status)`;
* the reactive model (`src/events_impl/*`): nodes expose
  `should_react_to(kind) -> bool` and `react(event, &mut ctx) -> Status`.

A Rust `Box<dyn Bhv>` tree is embedded as an inductive syntax tree whose
leaves are arbitrary state machines (state modelled as `Nat`, covering the
`Action` / `Cond` / `AsyncAction` adaptors and any user implementation of the
trait), and whose inner constructors are the library's decorators and
composites together with their private resumption state, exactly as stored in
the corresponding Rust structs.  Rust's `&mut` mutation is embedded as
explicit state passing: every `update` / `react` returns the new tree.
A Rust panic (out-of-bounds index) is embedded as `Option.none`.
-/

/-- `Status` from `src/core.rs` (and identically `src/events_impl/core.rs`):
the three-valued outcome of one step. -/
inductive Status where
  | running
  | success
  | failure
deriving DecidableEq, Repr

/-- The status transform performed by `Inv::update` (`src/decor.rs` lines
133-139): `Running ↦ Running`, `Success ↦ Failure`, `Failure ↦ Success`. -/
def Status.invert : Status → Status
  | .running => .running
  | .success => .failure
  | .failure => .success

@[simp] theorem Status.invert_invert (s : Status) : s.invert.invert = s := by
  cases s <;> rfl

/-- Poll-model behavior trees.  Constructors mirror the Rust structs:

* `node s stp rst` — an arbitrary implementation of the `Bhv` trait
  (`src/core.rs`): private state `s`, `update` as `stp`, `reset` as `rst`.
  The adaptors of `src/adapt.rs` are the special cases that ignore the
  state (`Cond`, `Action`) or use it as closure-captured data
  (`AsyncAction`, `src/old_impl/adapt.rs`).
* `inv`, `pass`, `fail` — `Inv`, `Pass`, `Fail` of `src/decor.rs`.
* `repeatN count current b` — `Repeat { bhv, count, current }`.
* `repeatUntil cond checked b` — `RepeatUntil { bhv, cond, checked_cond }`.
* `seqL nodes current` / `selL nodes current` — `Seq(List)` / `Sel(List)`
  of `src/composite.rs`: child vector plus the `current` cursor.
-/
inductive PBhv (Ctx : Type) where
  | node (s : Nat) (stp : Nat → Ctx → Nat × Ctx × Status) (rst : Nat → Status → Nat)
  | inv (b : PBhv Ctx)
  | pass (b : PBhv Ctx)
  | fail (b : PBhv Ctx)
  | repeatN (count current : Nat) (b : PBhv Ctx)
  | repeatUntil (cond : Ctx → Bool) (checked : Bool) (b : PBhv Ctx)
  | seqL (nodes : List (PBhv Ctx)) (current : Nat)
  | selL (nodes : List (PBhv Ctx)) (current : Nat)

theorem List.sizeOf_take_le {α : Type} [SizeOf α] (l : List α) (n : Nat) :
    sizeOf (l.take n) ≤ sizeOf l := by
  induction l generalizing n with
  | nil => cases n <;> simp
  | cons a t ih =>
    cases n with
    | zero => simp [List.take]; omega
    | succ m =>
      simp only [List.take, List.cons.sizeOf_spec]
      have := ih m
      omega

theorem List.sizeOf_drop_le {α : Type} [SizeOf α] (l : List α) (n : Nat) :
    sizeOf (l.drop n) ≤ sizeOf l := by
  induction l generalizing n with
  | nil => cases n <;> simp
  | cons a t ih =>
    cases n with
    | zero => simp
    | succ m =>
      simp only [List.drop, List.cons.sizeOf_spec]
      have := ih m
      omega

mutual
/-- `Bhv::reset` of the poll model.  For the composite (`List::reset`,
`src/composite.rs` lines 73-81, textually identical in
`src/old_impl/composite.rs` lines 84-92): resets `nodes[..current.clamp(0, len)]`,
each child being reset with the policy's continue status
(`Policy::STATUS`), and sets `current = 0`.  For `Repeat::reset`
(`src/decor.rs` lines 195-198): resets the child and restores `current = 1`.
`RepeatUntil::reset` (lines 226-228) forwards to the child only — the
`checked_cond` flag is NOT cleared.  `Inv`/`Pass`/`Fail` forward. -/
def PBhv.resetF {Ctx : Type} : PBhv Ctx → Status → PBhv Ctx
  | .node s stp rst, st => .node (rst s st) stp rst
  | .inv b, st => .inv (b.resetF st)
  | .pass b, st => .pass (b.resetF st)
  | .fail b, st => .fail (b.resetF st)
  | .repeatN count _ b, st => .repeatN count 1 (b.resetF st)
  | .repeatUntil c ck b, st => .repeatUntil c ck (b.resetF st)
  | .seqL nodes current, _ =>
      .seqL (resetPrefix .success (nodes.take current) ++ nodes.drop current) 0
  | .selL nodes current, _ =>
      .selL (resetPrefix .failure (nodes.take current) ++ nodes.drop current) 0
  termination_by b _ => sizeOf b
  decreasing_by
    all_goals simp_wf
    all_goals have h := List.sizeOf_take_le nodes current
    all_goals omega

/-- The `self.nodes[..count].iter_mut().for_each(|n| n.reset(Policy::STATUS))`
part of `List::reset`. -/
def resetPrefix {Ctx : Type} (policy : Status) : List (PBhv Ctx) → List (PBhv Ctx)
  | [] => []
  | n :: rest => n.resetF policy :: resetPrefix policy rest
  termination_by l => sizeOf l
end

mutual
/-- `Bhv::update` of the poll model, one clause per Rust `impl Bhv`:

* `node`: runs the stored state machine.
* `inv` / `pass` / `fail`: `src/decor.rs` lines 130-174.
* `repeatN`: `src/decor.rs` lines 176-193 — when `current >= count` the
  child's status is returned unmodified; otherwise the child is run, on a
  terminal status it is reset and `current` incremented, and `Running` is
  returned.
* `repeatUntil`: `src/decor.rs` lines 201-224 — run the child; on a terminal
  status clear `checked_cond` and reset the child; then, if `checked_cond`
  is false, evaluate the predicate: `true` returns `Success`, `false` sets
  `checked_cond`; finally return `Running`.
* `seqL` / `selL`: `List::update` of `src/composite.rs` lines 56-71 — the
  busy loop from the cursor, which `goList` renders as structural recursion
  on the remaining suffix `nodes.drop current`.  NOTE: this (current)
  implementation performs no reset inside `update`; it returns
  `Policy::STATUS` when the cursor reaches the end of the list and returns
  any non-continue child status directly, leaving the cursor where it is.
-/
def PBhv.update {Ctx : Type} : PBhv Ctx → Ctx → PBhv Ctx × Ctx × Status
  | .node s stp rst, ctx =>
      let r := stp s ctx
      (.node r.1 stp rst, r.2.1, r.2.2)
  | .inv b, ctx =>
      let r := b.update ctx
      (.inv r.1, r.2.1, r.2.2.invert)
  | .pass b, ctx =>
      let r := b.update ctx
      (.pass r.1, r.2.1, match r.2.2 with | .failure => .success | s => s)
  | .fail b, ctx =>
      let r := b.update ctx
      (.fail r.1, r.2.1, match r.2.2 with | .success => .failure | s => s)
  | .repeatN count current b, ctx =>
      if current ≥ count then
        let r := b.update ctx
        (.repeatN count current r.1, r.2.1, r.2.2)
      else
        let r := b.update ctx
        match r.2.2 with
        | .running => (.repeatN count current r.1, r.2.1, .running)
        | s => (.repeatN count (current + 1) (r.1.resetF s), r.2.1, .running)
  | .repeatUntil c ck b, ctx =>
      let r := b.update ctx
      let st :=
        match r.2.2 with
        | .running => (r.1, ck)
        | s => (r.1.resetF s, false)
      if !st.2 then
        if c r.2.1 then (.repeatUntil c st.2 st.1, r.2.1, .success)
        else (.repeatUntil c true st.1, r.2.1, .running)
      else (.repeatUntil c st.2 st.1, r.2.1, .running)
  | .seqL nodes current, ctx =>
      let r := goList .success (nodes.drop current) ctx
      (.seqL (nodes.take current ++ r.1) (current + r.2.1), r.2.2.1, r.2.2.2)
  | .selL nodes current, ctx =>
      let r := goList .failure (nodes.drop current) ctx
      (.selL (nodes.take current ++ r.1) (current + r.2.1), r.2.2.1, r.2.2.2)
  termination_by b _ => sizeOf b
  decreasing_by
    all_goals simp_wf
    all_goals have h := List.sizeOf_drop_le nodes current
    all_goals omega

/-- The scanning loop of `List::update` (`src/composite.rs` lines 57-70) over
the suffix of children starting at the cursor.  Returns the updated suffix,
the number of children that returned the continue status (the cursor
advance), the final context and the status: `policy` exactly when the end of
the list was reached, otherwise the first non-continue child status. -/
def goList {Ctx : Type} (policy : Status) :
    List (PBhv Ctx) → Ctx → List (PBhv Ctx) × Nat × Ctx × Status
  | [], ctx => ([], 0, ctx, policy)
  | n :: rest, ctx =>
      let r := n.update ctx
      if r.2.2 = policy then
        let g := goList policy rest r.2.1
        (r.1 :: g.1, g.2.1 + 1, g.2.2.1, g.2.2.2)
      else
        (r.1 :: rest, 0, r.2.1, r.2.2)
  termination_by l _ => sizeOf l
end

mutual
/-- `Bhv::update` of the DRAFT poll variant `src/old_impl/*`.  The decorator
clauses (`src/old_impl/decor.rs`) are textually identical to the current
ones; additionally `RepeatUntilPass` / `RepeatUntilFail` exist there, which
no claim needs, so trees are the same `PBhv` syntax.  The composite clause
(`List::update`, `src/old_impl/composite.rs` lines 62-82) differs from the
current one: on a short-circuit child status `s` it calls `self.reset(s)`
before returning `s`, and on reaching the end of the list it calls
`self.reset(Policy::STATUS)` before returning `Policy::STATUS`; only
`Running` is returned without a reset.  `List::reset` is identical in both
variants, so `PBhv.resetF` is shared. -/
def PBhv.oldUpdate {Ctx : Type} : PBhv Ctx → Ctx → PBhv Ctx × Ctx × Status
  | .node s stp rst, ctx =>
      let r := stp s ctx
      (.node r.1 stp rst, r.2.1, r.2.2)
  | .inv b, ctx =>
      let r := b.oldUpdate ctx
      (.inv r.1, r.2.1, r.2.2.invert)
  | .pass b, ctx =>
      let r := b.oldUpdate ctx
      (.pass r.1, r.2.1, match r.2.2 with | .failure => .success | s => s)
  | .fail b, ctx =>
      let r := b.oldUpdate ctx
      (.fail r.1, r.2.1, match r.2.2 with | .success => .failure | s => s)
  | .repeatN count current b, ctx =>
      if current ≥ count then
        let r := b.oldUpdate ctx
        (.repeatN count current r.1, r.2.1, r.2.2)
      else
        let r := b.oldUpdate ctx
        match r.2.2 with
        | .running => (.repeatN count current r.1, r.2.1, .running)
        | s => (.repeatN count (current + 1) (r.1.resetF s), r.2.1, .running)
  | .repeatUntil c ck b, ctx =>
      let r := b.oldUpdate ctx
      let st :=
        match r.2.2 with
        | .running => (r.1, ck)
        | s => (r.1.resetF s, false)
      if !st.2 then
        if c r.2.1 then (.repeatUntil c st.2 st.1, r.2.1, .success)
        else (.repeatUntil c true st.1, r.2.1, .running)
      else (.repeatUntil c st.2 st.1, r.2.1, .running)
  | .seqL nodes current, ctx =>
      let r := oldGoList .success (nodes.drop current) ctx
      let t := PBhv.seqL (nodes.take current ++ r.1) (current + r.2.1)
      match r.2.2.2 with
      | .running => (t, r.2.2.1, .running)
      | s => (t.resetF s, r.2.2.1, s)
  | .selL nodes current, ctx =>
      let r := oldGoList .failure (nodes.drop current) ctx
      let t := PBhv.selL (nodes.take current ++ r.1) (current + r.2.1)
      match r.2.2.2 with
      | .running => (t, r.2.2.1, .running)
      | s => (t.resetF s, r.2.2.1, s)
  termination_by b _ => sizeOf b
  decreasing_by
    all_goals simp_wf
    all_goals have h := List.sizeOf_drop_le nodes current
    all_goals omega

/-- The scanning loop of the draft `List::update` — same scan as `goList`
(advance on the continue status, stop on anything else), the resets of the
draft being applied by `PBhv.oldUpdate` afterwards as the source does via
`self.reset`. -/
def oldGoList {Ctx : Type} (policy : Status) :
    List (PBhv Ctx) → Ctx → List (PBhv Ctx) × Nat × Ctx × Status
  | [], ctx => ([], 0, ctx, policy)
  | n :: rest, ctx =>
      let r := n.oldUpdate ctx
      if r.2.2 = policy then
        let g := oldGoList policy rest r.2.1
        (r.1 :: g.1, g.2.1 + 1, g.2.2.1, g.2.2.2)
      else
        (r.1 :: rest, 0, r.2.1, r.2.2)
  termination_by l _ => sizeOf l
end

/-- `Bhv::execute` of the poll model (`src/core.rs` lines 30-41): repeatedly
call `update` until a non-`Running` status.  The source busy-loops without
bound, so the embedding takes the number of allowed iterations as fuel and
returns `none` when it is exhausted; on termination it returns how many
`update` calls were made, the final context, and the terminal status
(`execute` itself maps `Success`/`Failure` to `true`/`false`). -/
def pollRun {Ctx : Type} : Nat → PBhv Ctx → Ctx → Option (Nat × Ctx × Status)
  | 0, _, _ => none
  | fuel + 1, b, ctx =>
      let r := b.update ctx
      match r.2.2 with
      | .running => (pollRun fuel r.1 r.2.1).map (fun q => (q.1 + 1, q.2))
      | s => some (1, r.2.1, s)

/-- The cursor stored in a composite, for observing `List::update`'s
bookkeeping (`0` for non-composites). -/
def PBhv.topCursor {Ctx : Type} : PBhv Ctx → Nat
  | .seqL _ current => current
  | .selL _ current => current
  | _ => 0

/-- `Sel::with_nodes` (`src/old_impl/composite.rs` lines 34-43, and the
inner `List::with_nodes` of `src/composite.rs` lines 30-38): wraps any node
vector — including the empty one — with the cursor at 0.  No emptiness
check is performed. -/
def selWithNodes {Ctx : Type} (nodes : List (PBhv Ctx)) : PBhv Ctx :=
  .selL nodes 0

/-- `Seq::with_nodes` (`src/old_impl/composite.rs` lines 45-54): same, with
the sequence policy. -/
def seqWithNodes {Ctx : Type} (nodes : List (PBhv Ctx)) : PBhv Ctx :=
  .seqL nodes 0

/-- The `sel!` macro (`src/composite.rs` lines 118-128): zero arguments are
rejected at build (compile) time via `compile_error!`, modelled as `none`;
otherwise it builds `Sel(List::with_nodes(vec![...]))`. -/
def selMacro {Ctx : Type} : List (PBhv Ctx) → Option (PBhv Ctx)
  | [] => none
  | nodes => some (selWithNodes nodes)

/-- The `seq!` macro (`src/composite.rs` lines 132-142): zero arguments are
rejected at build (compile) time via `compile_error!`; otherwise it builds
`Seq(List::with_nodes(vec![...]))`. -/
def seqMacro {Ctx : Type} : List (PBhv Ctx) → Option (PBhv Ctx)
  | [] => none
  | nodes => some (seqWithNodes nodes)

/-- Reactive behavior trees (`src/events_impl/*`).  An `EventKind`
(`src/events_impl/events.rs`) is an opaque equality-only 64-bit fingerprint;
it is embedded as a `Nat`, and an event is represented by its kind (its only
control-relevant observable).  Constructors mirror the Rust structs:

* `node interest act` — an arbitrary implementation of the reactive `Bhv`
  trait (`src/events_impl/core.rs`): `should_react_to` as `interest`
  (the trait default, used by all of `src/events_impl/adapt.rs`, is
  `fun _ => true`) and `react` as `act`.
* `inv` / `pass` / `fail` — `src/events_impl/decor.rs` lines 55-99.
* `repeatN count current b` — reactive `Repeat` (lines 101-117).
* `repeatUntilPass` / `repeatUntilFail` — lines 119-147.
* `waitFor kind b` — `WaitFor` (lines 149-159), the event gate.
* `seq nodes` / `sel nodes` — `src/events_impl/composite.rs`; the reactive
  `List` has no cursor.
-/
inductive RBhv (Ctx : Type) where
  | node (interest : Nat → Bool) (act : Nat → Ctx → Ctx × Status)
  | inv (b : RBhv Ctx)
  | pass (b : RBhv Ctx)
  | fail (b : RBhv Ctx)
  | repeatN (count current : Nat) (b : RBhv Ctx)
  | repeatUntilPass (b : RBhv Ctx)
  | repeatUntilFail (b : RBhv Ctx)
  | waitFor (kind : Nat) (b : RBhv Ctx)
  | seq (nodes : List (RBhv Ctx))
  | sel (nodes : List (RBhv Ctx))

/-- `Bhv::should_react_to` of the reactive model.  The composite clause
(`List::should_react_to`, `src/events_impl/composite.rs` lines 63-66) is
`self.nodes[0].should_react_to(kind)`: it consults only the first child, and
on an empty child list the index `0` panics — embedded as `none`.
`Repeat::should_react_to` is `self.current < self.count &&
self.bhv.should_react_to(kind)` with Rust's short-circuiting `&&`.
`WaitFor::should_react_to` is `self.kind == kind`, without consulting the
child. -/
def RBhv.shouldReactTo {Ctx : Type} : RBhv Ctx → Nat → Option Bool
  | .node interest _, k => some (interest k)
  | .inv b, k => b.shouldReactTo k
  | .pass b, k => b.shouldReactTo k
  | .fail b, k => b.shouldReactTo k
  | .repeatN count current b, k =>
      if current < count then b.shouldReactTo k else some false
  | .repeatUntilPass b, k => b.shouldReactTo k
  | .repeatUntilFail b, k => b.shouldReactTo k
  | .waitFor kind _, k => some (kind == k)
  | .seq nodes, k =>
      match nodes with
      | [] => none
      | n :: _ => n.shouldReactTo k
  | .sel nodes, k =>
      match nodes with
      | [] => none
      | n :: _ => n.shouldReactTo k

mutual
/-- `Bhv::react` of the reactive model, instrumented with a trace: the
fourth component records one `(gate kind, event kind)` pair for every
`WaitFor::react` invocation performed during the call (erasing it yields
the source function unchanged).

* `node`: runs the stored reaction.
* `inv` / `pass` / `fail`: `src/events_impl/decor.rs` — status transforms.
* `repeatN`: reactive `Repeat::react` — `Running` on a child `Running`,
  otherwise increments `current` and returns `Running`.
* `repeatUntilPass` / `repeatUntilFail`: propagate the awaited status,
  anything else becomes `Running`.
* `waitFor`: forwards to the child unconditionally (the kind check lives
  only in `should_react_to`).
* `seq` / `sel`: `List::react` (`src/events_impl/composite.rs` lines
  68-83): iterate over `nodes.iter_mut().take_while(|n|
  n.should_react_to(event.event_type()))` — the lazy scan stops at the
  first uninterested child; a child returning `Policy::STATUS` continues
  the loop, anything else is returned; when the loop ends (interested
  prefix exhausted, whether or not it is the whole list) `Policy::STATUS`
  is returned. -/
def RBhv.react {Ctx : Type} :
    RBhv Ctx → Nat → Ctx → Option (RBhv Ctx × Ctx × Status × List (Nat × Nat))
  | .node interest act, k, ctx =>
      let r := act k ctx
      some (.node interest act, r.1, r.2, [])
  | .inv b, k, ctx =>
      (b.react k ctx).map fun r => (.inv r.1, r.2.1, r.2.2.1.invert, r.2.2.2)
  | .pass b, k, ctx =>
      (b.react k ctx).map fun r =>
        (.pass r.1, r.2.1, match r.2.2.1 with | .running => .running | _ => .success, r.2.2.2)
  | .fail b, k, ctx =>
      (b.react k ctx).map fun r =>
        (.fail r.1, r.2.1, match r.2.2.1 with | .running => .running | _ => .failure, r.2.2.2)
  | .repeatN count current b, k, ctx =>
      (b.react k ctx).map fun r =>
        match r.2.2.1 with
        | .running => (.repeatN count current r.1, r.2.1, .running, r.2.2.2)
        | _ => (.repeatN count (current + 1) r.1, r.2.1, .running, r.2.2.2)
  | .repeatUntilPass b, k, ctx =>
      (b.react k ctx).map fun r =>
        (.repeatUntilPass r.1, r.2.1,
          match r.2.2.1 with | .success => .success | _ => .running, r.2.2.2)
  | .repeatUntilFail b, k, ctx =>
      (b.react k ctx).map fun r =>
        (.repeatUntilFail r.1, r.2.1,
          match r.2.2.1 with | .failure => .failure | _ => .running, r.2.2.2)
  | .waitFor kind b, k, ctx =>
      (b.react k ctx).map fun r =>
        (.waitFor kind r.1, r.2.1, r.2.2.1, (kind, k) :: r.2.2.2)
  | .seq nodes, k, ctx =>
      (listReact .success nodes k ctx).map fun r => (.seq r.1, r.2)
  | .sel nodes, k, ctx =>
      (listReact .failure nodes k ctx).map fun r => (.sel r.1, r.2)
  termination_by b _ _ => sizeOf b

/-- The `take_while`-guarded loop of the reactive `List::react`. -/
def listReact {Ctx : Type} (policy : Status) :
    List (RBhv Ctx) → Nat → Ctx → Option (List (RBhv Ctx) × Ctx × Status × List (Nat × Nat))
  | [], _, ctx => some ([], ctx, policy, [])
  | n :: rest, k, ctx => do
      let i ← n.shouldReactTo k
      if i then
        let r ← n.react k ctx
        if r.2.2.1 = policy then
          let g ← listReact policy rest k r.2.1
          some (r.1 :: g.1, g.2.1, g.2.2.1, r.2.2.2 ++ g.2.2.2)
        else
          some (r.1 :: rest, r.2.1, r.2.2.1, r.2.2.2)
      else
        some (n :: rest, ctx, policy, [])
  termination_by l _ _ => sizeOf l
end

/-- `BhvExt::execute` of the reactive model (`src/events_impl/bhv_ext.rs`
lines 178-193): consume events one at a time; if the root is not interested
in an event's kind, stop ("no verdict"); otherwise `react`, continuing on
`Running` and stopping on a terminal status.  The source returns `()`; the
embedding is instrumented to return the final context, the terminal status
if one was produced (`none` = the loop stopped without a verdict), and the
number of events consumed by `react`. -/
def RBhv.execute {Ctx : Type} :
    RBhv Ctx → List Nat → Ctx → Option (Ctx × Option Status × Nat)
  | _, [], ctx => some (ctx, none, 0)
  | t, e :: es, ctx => do
      let i ← t.shouldReactTo e
      if i then
        let r ← t.react e ctx
        match r.2.2.1 with
        | .running => (RBhv.execute r.1 es r.2.1).map fun q => (q.1, q.2.1, q.2.2 + 1)
        | s => some (r.2.1, some s, 1)
      else
        some (ctx, none, 0)

/-- C10: for every child behavior, predicate, context and `checked_cond`
value, the poll-model `RepeatUntil::update` (`src/decor.rs` lines 208-224)
returns `Success` or `Running`, never `Failure`: a child's `Failure` is
swallowed (the child is reset and the decorator keeps going), so `Success`
is the only terminal outcome `RepeatUntil` can produce. -/
theorem repeatUntil_no_failure {Ctx : Type} (c : Ctx → Bool) (ck : Bool)
    (b : PBhv Ctx) (ctx : Ctx) :
    (PBhv.update (.repeatUntil c ck b) ctx).2.2 = Status.success ∨
    (PBhv.update (.repeatUntil c ck b) ctx).2.2 = Status.running := by
  simp only [PBhv.update]
  rcases hb : b.update ctx with ⟨b', ctx', s⟩
  cases s <;> simp only [hb] <;> (split <;> first | simp | (split <;> simp))

/-- C9: for every reactive composite and event kind,
`List::should_react_to` (`src/events_impl/composite.rs` lines 63-66) returns
exactly the first child's `should_react_to`, ignoring all later children
(`rest` is arbitrary and unexamined); on an empty child list the call
indexes element `0` and panics (`none`) instead of returning a boolean. -/
theorem composite_shouldReactTo_first {Ctx : Type} (n : RBhv Ctx)
    (rest : List (RBhv Ctx)) (k : Nat) :
    (RBhv.seq (n :: rest)).shouldReactTo k = n.shouldReactTo k ∧
    (RBhv.sel (n :: rest)).shouldReactTo k = n.shouldReactTo k ∧
    (RBhv.seq ([] : List (RBhv Ctx))).shouldReactTo k = none ∧
    (RBhv.sel ([] : List (RBhv Ctx))).shouldReactTo k = none := by
  refine ⟨?_, ?_, ?_, ?_⟩ <;> simp [RBhv.shouldReactTo]

/-- C8, counterexample: `Sel::with_nodes`/`Seq::with_nodes` accept an empty
child list with no build-time rejection, and the resulting empty composite
executes fine at run time — `List::update` immediately returns
`Policy::STATUS` (`Failure` for `Sel`, `Success` for `Seq`).  This refutes
the claim that a composite with zero children cannot be constructed (outside
the macros) or executed. -/
theorem empty_composite_executes :
    selWithNodes ([] : List (PBhv Nat)) = PBhv.selL [] 0 ∧
    PBhv.update (selWithNodes ([] : List (PBhv Nat))) 0 = (PBhv.selL [] 0, 0, Status.failure) ∧
    PBhv.update (seqWithNodes ([] : List (PBhv Nat))) 0 = (PBhv.seqL [] 0, 0, Status.success) := by
  refine ⟨rfl, ?_, ?_⟩ <;> simp [selWithNodes, seqWithNodes, PBhv.update, goList]

/-- C8, amended: only the `sel!`/`seq!` macros reject zero children, at
compile time; the `with_nodes` constructors accept an empty list, and such a
composite is executable at run time: the poll-model `update` immediately
returns the policy status, while the reactive `should_react_to` panics
(indexes element 0 of an empty vector). -/
theorem empty_composite_rules :
    selMacro ([] : List (PBhv Nat)) = none ∧
    seqMacro ([] : List (PBhv Nat)) = none ∧
    (∀ (n : PBhv Nat) rest, selMacro (n :: rest) = some (selWithNodes (n :: rest))) ∧
    (∀ (n : PBhv Nat) rest, seqMacro (n :: rest) = some (seqWithNodes (n :: rest))) ∧
    (∀ ctx : Nat, PBhv.update (selWithNodes []) ctx = (PBhv.selL [] 0, ctx, Status.failure)) ∧
    (∀ ctx : Nat, PBhv.update (seqWithNodes []) ctx = (PBhv.seqL [] 0, ctx, Status.success)) ∧
    (∀ k, (RBhv.sel ([] : List (RBhv Nat))).shouldReactTo k = none) ∧
    (∀ k, (RBhv.seq ([] : List (RBhv Nat))).shouldReactTo k = none) := by
  refine ⟨rfl, rfl, fun n rest => rfl, fun n rest => rfl, ?_, ?_, ?_, ?_⟩ <;>
    intro x <;> simp [selWithNodes, seqWithNodes, PBhv.update, goList, RBhv.shouldReactTo]

/-- C2, counterexample: the current poll composite (`List::update`,
`src/composite.rs` lines 56-71) performs NO reset when a call completes the
run.  A `Seq` with a single immediately-succeeding child: the call returns
`Success` (run complete), yet the cursor is left at 1 — not reset to 0 —
and the visited child keeps its un-reset state 5 (its `reset` would have
zeroed it). -/
theorem current_impl_no_reset_on_completion :
    (PBhv.update (PBhv.seqL [PBhv.node 5 (fun s (c : Nat) => (s, c, Status.success)) (fun _ _ => 0)] 0) 0).2.2
      = Status.success ∧
    (PBhv.update (PBhv.seqL [PBhv.node 5 (fun s (c : Nat) => (s, c, Status.success)) (fun _ _ => 0)] 0) 0).1.topCursor
      = 1 ∧
    (PBhv.update (PBhv.seqL [PBhv.node 5 (fun s (c : Nat) => (s, c, Status.success)) (fun _ _ => 0)] 0) 0).1
      = PBhv.seqL [PBhv.node 5 (fun s (c : Nat) => (s, c, Status.success)) (fun _ _ => 0)] 1 := by
  refine ⟨?_, ?_, ?_⟩ <;> simp [PBhv.update, goList, PBhv.topCursor]

/-- C2, amended: in the draft (`old_impl`) poll composite, whenever a call
to `update` completes the run (returns a non-`Running` status), the cursor
is reset to 0 before the call returns, and exactly the children at indices
strictly below the completion index — all children on end-of-list
completion, the children before the short-circuiting child on a
short-circuit, plus previously-visited ones — have their `reset` invoked
(with the policy's continue status); the children from the completion index
on (in particular the short-circuiting child itself) are left un-reset.
The current (`src/composite.rs`) composite performs no reset inside
`update` at all (see the counterexample). -/
theorem old_impl_reset_on_completion {Ctx : Type}
    (nodes : List (PBhv Ctx)) (cur : Nat) (ctx : Ctx) :
    ((PBhv.oldUpdate (.seqL nodes cur) ctx).2.2 ≠ Status.running →
      PBhv.oldUpdate (.seqL nodes cur) ctx
        = (PBhv.seqL
            (resetPrefix Status.success
              ((nodes.take cur ++ (oldGoList Status.success (nodes.drop cur) ctx).1).take
                (cur + (oldGoList Status.success (nodes.drop cur) ctx).2.1))
              ++ (nodes.take cur ++ (oldGoList Status.success (nodes.drop cur) ctx).1).drop
                (cur + (oldGoList Status.success (nodes.drop cur) ctx).2.1)) 0,
           (oldGoList Status.success (nodes.drop cur) ctx).2.2.1,
           (oldGoList Status.success (nodes.drop cur) ctx).2.2.2) ∧
      (PBhv.oldUpdate (.seqL nodes cur) ctx).1.topCursor = 0) ∧
    ((PBhv.oldUpdate (.selL nodes cur) ctx).2.2 ≠ Status.running →
      PBhv.oldUpdate (.selL nodes cur) ctx
        = (PBhv.selL
            (resetPrefix Status.failure
              ((nodes.take cur ++ (oldGoList Status.failure (nodes.drop cur) ctx).1).take
                (cur + (oldGoList Status.failure (nodes.drop cur) ctx).2.1))
              ++ (nodes.take cur ++ (oldGoList Status.failure (nodes.drop cur) ctx).1).drop
                (cur + (oldGoList Status.failure (nodes.drop cur) ctx).2.1)) 0,
           (oldGoList Status.failure (nodes.drop cur) ctx).2.2.1,
           (oldGoList Status.failure (nodes.drop cur) ctx).2.2.2) ∧
      (PBhv.oldUpdate (.selL nodes cur) ctx).1.topCursor = 0) := by
  constructor
  · rcases h : oldGoList Status.success (nodes.drop cur) ctx with ⟨ns', adv, c', s⟩
    cases s <;>
      simp [PBhv.oldUpdate, h, PBhv.resetF, PBhv.topCursor]
  · rcases h : oldGoList Status.failure (nodes.drop cur) ctx with ⟨ns', adv, c', s⟩
    cases s <;>
      simp [PBhv.oldUpdate, h, PBhv.resetF, PBhv.topCursor]

/-- C2 witness: the amended theorem at a one-child `Seq` whose child
succeeds immediately — the completing draft `update` returns cursor 0 and
the visited child reset (state 5 zeroed by its `reset`). -/
theorem old_impl_reset_on_completion_witness :
    PBhv.oldUpdate (PBhv.seqL [PBhv.node 5 (fun s (c : Nat) => (s, c, Status.success)) (fun _ _ => 0)] 0) 0
      = (PBhv.seqL [PBhv.node 0 (fun s (c : Nat) => (s, c, Status.success)) (fun _ _ => 0)] 0, 0, Status.success) ∧
    (PBhv.oldUpdate (PBhv.seqL [PBhv.node 5 (fun s (c : Nat) => (s, c, Status.success)) (fun _ _ => 0)] 0) 0).1.topCursor
      = 0 := by
  have h := (old_impl_reset_on_completion
    [PBhv.node 5 (fun s (c : Nat) => (s, c, Status.success)) (fun _ _ => 0)] 0 0).1
    (by simp [PBhv.oldUpdate, oldGoList])
  refine ⟨?_, h.2⟩
  simpa [oldGoList, PBhv.oldUpdate, resetPrefix, PBhv.resetF] using h.1

/-- C5: `RepeatUntil` with a child that decrements the counter by 1 per
completed run and the predicate `counter == 0`, started from `counter = 2`:
the run completes the child exactly 2 times (2 `update` calls, each a full
child run) and then returns `Success` with `counter = 0`.  Second conjunct:
the `checked_cond` flag prevents re-evaluating the predicate while the
child is mid-run — when `checked_cond` is set and the child returns
`Running`, `update` returns `Running` with the same flag and an arbitrary,
unevaluated predicate `p` (the result does not depend on `p`). -/
theorem repeatUntil_scenario :
    pollRun 2 (PBhv.repeatUntil (fun c : Nat => c == 0) false
        (PBhv.node 0 (fun s c => (s, c - 1, Status.success)) (fun s _ => s))) 2
      = some (2, 0, Status.success) ∧
    (∀ {Ctx : Type} (p : Ctx → Bool) (b : PBhv Ctx) (ctx : Ctx) (b' : PBhv Ctx) (c' : Ctx),
      PBhv.update b ctx = (b', c', Status.running) →
      PBhv.update (.repeatUntil p true b) ctx
        = (.repeatUntil p true b', c', Status.running)) := by
  constructor
  · simp [pollRun, PBhv.update, PBhv.resetF]
  · intro Ctx p b ctx b' c' h
    simp [PBhv.update, h]

/-- C5 witness: the mid-run conjunct applied to an always-`Running` leaf. -/
theorem repeatUntil_scenario_witness :
    PBhv.update (PBhv.repeatUntil (fun _ : Nat => true) true
        (PBhv.node 0 (fun s (c : Nat) => (s, c, Status.running)) (fun s _ => s))) 0
      = (PBhv.repeatUntil (fun _ : Nat => true) true
          (PBhv.node 0 (fun s (c : Nat) => (s, c, Status.running)) (fun s _ => s)), 0, Status.running) :=
  repeatUntil_scenario.2 (fun _ : Nat => true)
    (PBhv.node 0 (fun s (c : Nat) => (s, c, Status.running)) (fun s _ => s)) 0
    (PBhv.node 0 (fun s (c : Nat) => (s, c, Status.running)) (fun s _ => s)) 0
    (by simp [PBhv.update])

/-- Splitting lemma for the composite scan: if every child of `pre` returns
the continue status (the scan consumes all of `pre`, ending in context
`c1`), then scanning `pre ++ more` runs `pre` first and continues into
`more` from `c1`. -/
theorem goList_append_of_all_continue {Ctx : Type} (policy : Status)
    (pre : List (PBhv Ctx)) (more : List (PBhv Ctx)) (ctx : Ctx)
    (pre' : List (PBhv Ctx)) (c1 : Ctx)
    (h : goList policy pre ctx = (pre', pre.length, c1, policy)) :
    goList policy (pre ++ more) ctx
      = (pre' ++ (goList policy more c1).1,
         pre.length + (goList policy more c1).2.1,
         (goList policy more c1).2.2) := by
  induction pre generalizing ctx pre' with
  | nil =>
    simp [goList] at h
    simp [h.1, h.2]
  | cons p ps ih =>
    rcases hr : p.update ctx with ⟨p', cx, s⟩
    by_cases hs : s = policy
    · rw [hs] at hr
      rcases hg : goList policy ps cx with ⟨g1, gadv, gc, gs⟩
      simp only [goList, hr, List.length_cons, if_pos rfl, hg, Prod.mk.injEq] at h
      obtain ⟨h1, h2, h3, h4⟩ := h
      have hih := ih cx g1 hg
      simp only [List.cons_append, goList, hr, hih, List.length_cons]
      simp [Nat.add_right_comm]
    · simp only [goList, hr, if_neg hs, List.length_cons, Prod.mk.injEq] at h
      omega

/-- C3: for every poll-model `Sequence`, in the `update` call that reaches
it, the first child to return `Failure` (child `n`, after the children of
`pre` return `Success` in ctx-threaded order from the cursor) makes the
`Sequence`'s `update` return `Failure` in that same call; the children
after it (`rest`) are returned untouched and contribute nothing — the
final context is exactly the one produced by the failing child — and the
cursor stops on the failing child (children beyond the cursor are never
entered in any call, so no later child runs during the whole run). -/
theorem seq_first_failure_aborts {Ctx : Type}
    (done pre rest : List (PBhv Ctx)) (n : PBhv Ctx)
    (ctx c1 c2 : Ctx) (pre' : List (PBhv Ctx)) (n' : PBhv Ctx)
    (hpre : goList Status.success pre ctx = (pre', pre.length, c1, Status.success))
    (hn : PBhv.update n c1 = (n', c2, Status.failure)) :
    PBhv.update (.seqL (done ++ pre ++ n :: rest) done.length) ctx
      = (.seqL (done ++ pre' ++ n' :: rest) (done.length + pre.length), c2, Status.failure) := by
  have hgo := goList_append_of_all_continue Status.success pre (n :: rest) ctx pre' c1 hpre
  have hn' : goList Status.success (n :: rest) c1 = (n' :: rest, 0, c2, Status.failure) := by
    simp [goList, hn]
  rw [hn'] at hgo
  simp only [PBhv.update, List.append_assoc, List.drop_left, List.take_left, hgo]
  simp

/-- C3 witness: a three-child `Seq` whose second child fails on the first
call: `update` returns `Failure` immediately, the cursor stops at index 1,
and the third child is untouched. -/
theorem seq_first_failure_aborts_witness :
    PBhv.update (PBhv.seqL
      [PBhv.node 1 (fun s (c : Nat) => (s, c, Status.success)) (fun s _ => s),
       PBhv.node 2 (fun s (c : Nat) => (s, c, Status.failure)) (fun s _ => s),
       PBhv.node 3 (fun s (c : Nat) => (s, c, Status.success)) (fun s _ => s)] 0) 0
      = (PBhv.seqL
          [PBhv.node 1 (fun s (c : Nat) => (s, c, Status.success)) (fun s _ => s),
           PBhv.node 2 (fun s (c : Nat) => (s, c, Status.failure)) (fun s _ => s),
           PBhv.node 3 (fun s (c : Nat) => (s, c, Status.success)) (fun s _ => s)] 1,
         0, Status.failure) := by
  have h := seq_first_failure_aborts ([] : List (PBhv Nat))
    [PBhv.node 1 (fun s (c : Nat) => (s, c, Status.success)) (fun s _ => s)]
    [PBhv.node 3 (fun s (c : Nat) => (s, c, Status.success)) (fun s _ => s)]
    (PBhv.node 2 (fun s (c : Nat) => (s, c, Status.failure)) (fun s _ => s))
    0 0 0
    [PBhv.node 1 (fun s (c : Nat) => (s, c, Status.success)) (fun s _ => s)]
    (PBhv.node 2 (fun s (c : Nat) => (s, c, Status.failure)) (fun s _ => s))
    (by simp [goList, PBhv.update])
    (by simp [PBhv.update])
  simpa using h

/-- The tree-shape correspondence used by the De Morgan duality proof:
a `Sel` state corresponds to `Invert` around a `Seq` of `Invert`ed
children with the same cursor. -/
def dmMap {Ctx : Type} : PBhv Ctx → PBhv Ctx
  | .selL ns c => .inv (.seqL (ns.map PBhv.inv) c)
  | t => t

/-- Scan-level De Morgan duality: scanning inverted children under the
`Seq` policy (continue on `Success`) is the inversion of scanning the raw
children under the `Sel` policy (continue on `Failure`). -/
theorem goList_demorgan {Ctx : Type} :
    ∀ (ns : List (PBhv Ctx)) (ctx : Ctx),
    goList Status.success (ns.map PBhv.inv) ctx
      = ((goList Status.failure ns ctx).1.map PBhv.inv,
         (goList Status.failure ns ctx).2.1,
         (goList Status.failure ns ctx).2.2.1,
         (goList Status.failure ns ctx).2.2.2.invert) := by
  intro ns
  induction ns with
  | nil => intro ctx; simp [goList, Status.invert]
  | cons n rest ih =>
    intro ctx
    rcases hn : n.update ctx with ⟨n', cx, s⟩
    cases s <;>
      simp [goList, PBhv.update, hn, Status.invert, ih]

/-- Single-step De Morgan duality: one `update` of
`Inv(Seq(inverted children))` returns exactly the status and context of one
`update` of `Sel(children)`, with corresponding resumption states. -/
theorem update_demorgan {Ctx : Type} (ns : List (PBhv Ctx)) (cur : Nat) (ctx : Ctx) :
    PBhv.update (.inv (.seqL (ns.map PBhv.inv) cur)) ctx
      = (dmMap (PBhv.update (.selL ns cur) ctx).1,
         (PBhv.update (.selL ns cur) ctx).2.1,
         (PBhv.update (.selL ns cur) ctx).2.2) := by
  simp only [PBhv.update]
  rw [← List.map_drop, goList_demorgan (ns.drop cur) ctx, ← List.map_take]
  simp [dmMap, Status.invert_invert]

/-- Run-level De Morgan duality for an arbitrary child list and cursor,
for every fuel bound. -/
theorem demorgan_run {Ctx : Type} :
    ∀ (fuel : Nat) (ns : List (PBhv Ctx)) (cur : Nat) (ctx : Ctx),
    pollRun fuel (.selL ns cur) ctx
      = pollRun fuel (.inv (.seqL (ns.map PBhv.inv) cur)) ctx := by
  intro fuel
  induction fuel with
  | zero => intro ns cur ctx; simp [pollRun]
  | succ f ih =>
    intro ns cur ctx
    have hd := update_demorgan ns cur ctx
    simp only [pollRun, hd]
    simp only [PBhv.update]
    rcases hgo : goList Status.failure (ns.drop cur) ctx with ⟨g1, adv, gc, gs⟩
    cases gs <;> simp [dmMap, ih]

/-- C7: for every pair of child behaviors `a`, `b`, every context, and every
run length, running `Selector([a, b])` is indistinguishable from running
`Invert(Sequence([Invert(a), Invert(b)]))`: same number of steps, same
final context, same result status (for all child outcome sequences — the
children are arbitrary behaviors). -/
theorem sel_demorgan_seq {Ctx : Type} (fuel : Nat) (a b : PBhv Ctx) (ctx : Ctx) :
    pollRun fuel (.selL [a, b] 0) ctx
      = pollRun fuel (.inv (.seqL [.inv a, .inv b] 0)) ctx := by
  have h := demorgan_run fuel [a, b] 0 ctx
  simpa using h

/-- A full poll run in the sense of §4.1: `k` calls to `update`, every call
but the last returning `Running`, the last returning the terminal status
`s`, evolving the tree from `b` (fresh state) to `b'`. -/
inductive StepsTo {Ctx : Type} : PBhv Ctx → Ctx → Nat → PBhv Ctx → Ctx → Status → Prop where
  | done {b : PBhv Ctx} {ctx : Ctx} {b' : PBhv Ctx} {ctx' : Ctx} {s : Status} :
      PBhv.update b ctx = (b', ctx', s) → s ≠ Status.running →
      StepsTo b ctx 1 b' ctx' s
  | step {b : PBhv Ctx} {ctx : Ctx} {b' : PBhv Ctx} {ctx' : Ctx} {n : Nat}
      {b2 : PBhv Ctx} {ctx2 : Ctx} {s : Status} :
      PBhv.update b ctx = (b', ctx', Status.running) →
      StepsTo b' ctx' n b2 ctx2 s →
      StepsTo b ctx (n + 1) b2 ctx2 s

/-- `k` consecutive `update` calls all returning `Running`. -/
inductive RunningSteps {Ctx : Type} : PBhv Ctx → Ctx → Nat → PBhv Ctx → Ctx → Prop where
  | zero {b : PBhv Ctx} {ctx : Ctx} : RunningSteps b ctx 0 b ctx
  | step {b : PBhv Ctx} {ctx : Ctx} {b' : PBhv Ctx} {ctx' : Ctx} {n : Nat}
      {b2 : PBhv Ctx} {ctx2 : Ctx} :
      PBhv.update b ctx = (b', ctx', Status.running) →
      RunningSteps b' ctx' n b2 ctx2 →
      RunningSteps b ctx (n + 1) b2 ctx2

/-- `n` consecutive full runs of a child behavior, the child being `reset`
with its terminal status between runs (the reset discipline of §4.1),
taking `T` update calls in total and ending with the `n`-th run's terminal
status — the child is left in its post-terminal, un-reset state. -/
inductive ChainRuns {Ctx : Type} : Nat → PBhv Ctx → Ctx → Nat → PBhv Ctx → Ctx → Status → Prop where
  | one {b : PBhv Ctx} {ctx : Ctx} {k : Nat} {b' : PBhv Ctx} {ctx' : Ctx} {s : Status} :
      StepsTo b ctx k b' ctx' s → ChainRuns 1 b ctx k b' ctx' s
  | more {b : PBhv Ctx} {ctx : Ctx} {k : Nat} {b' : PBhv Ctx} {ctx' : Ctx} {s : Status}
      {n m : Nat} {bf : PBhv Ctx} {cf : Ctx} {sf : Status} :
      StepsTo b ctx k b' ctx' s →
      ChainRuns n (b'.resetF s) ctx' m bf cf sf →
      ChainRuns (n + 1) b ctx (k + m) bf cf sf

theorem runningSteps_trans_stepsTo {Ctx : Type} {b : PBhv Ctx} {ctx : Ctx} {k : Nat}
    {b' : PBhv Ctx} {ctx' : Ctx}
    (h : RunningSteps b ctx k b' ctx') {m : Nat} {bf : PBhv Ctx} {cf : Ctx} {s : Status}
    (h2 : StepsTo b' ctx' m bf cf s) :
    StepsTo b ctx (k + m) bf cf s := by
  induction h with
  | zero => simpa using h2
  | step hu hrest ih =>
    have e : ∀ x y : Nat, x + 1 + y = x + y + 1 := fun x y => by omega
    rw [e]
    exact StepsTo.step hu (ih h2)

/-- While `current < count`, `Repeat` converts a full child run of `k`
calls into `k` `Running` outputs, resetting the child with its terminal
status and incrementing `current` when the run completes
(`src/decor.rs` lines 182-192). -/
theorem repeat_child_run {Ctx : Type} {cnt cur : Nat} (hlt : cur < cnt)
    {b : PBhv Ctx} {ctx : Ctx} {k : Nat} {b' : PBhv Ctx} {ctx' : Ctx} {s : Status}
    (h : StepsTo b ctx k b' ctx' s) :
    RunningSteps (.repeatN cnt cur b) ctx k (.repeatN cnt (cur + 1) (b'.resetF s)) ctx' := by
  induction h with
  | done hu hs =>
    refine RunningSteps.step ?_ RunningSteps.zero
    have hn : ¬ cur ≥ cnt := by omega
    cases hss : ‹Status› <;> simp_all [PBhv.update, hu, hn]
  | step hu hrest ih =>
    have hn : ¬ cur ≥ cnt := by omega
    exact RunningSteps.step (by simp [PBhv.update, hu, hn]) ih

/-- Once `current ≥ count`, `Repeat` is a transparent pass-through of the
child (`src/decor.rs` lines 180-181): every call returns the child's
status unmodified, counter and child untouched by the decorator. -/
theorem repeat_passthrough {Ctx : Type} {cnt cur : Nat} (hge : cnt ≤ cur)
    {b : PBhv Ctx} {ctx : Ctx} {k : Nat} {b' : PBhv Ctx} {ctx' : Ctx} {s : Status}
    (h : StepsTo b ctx k b' ctx' s) :
    StepsTo (.repeatN cnt cur b) ctx k (.repeatN cnt cur b') ctx' s := by
  induction h with
  | done hu hs =>
    exact StepsTo.done (by simp [PBhv.update, hu, show cur ≥ cnt from hge]) hs
  | step hu hrest ih =>
    exact StepsTo.step (by simp [PBhv.update, hu, show cur ≥ cnt from hge]) ih

theorem chainRuns_pos {Ctx : Type} {n : Nat} {b : PBhv Ctx} {ctx : Ctx} {T : Nat}
    {bf : PBhv Ctx} {cf : Ctx} {s : Status} (h : ChainRuns n b ctx T bf cf s) : 1 ≤ n := by
  cases h <;> omega

theorem repeat_chain {Ctx : Type} {n : Nat} {b : PBhv Ctx} {ctx : Ctx} {T : Nat}
    {bf : PBhv Ctx} {cf : Ctx} {s : Status}
    (h : ChainRuns n b ctx T bf cf s) :
    ∀ {cnt cur : Nat}, cur + n = cnt + 1 →
    StepsTo (.repeatN cnt cur b) ctx T (.repeatN cnt cnt bf) cf s := by
  induction h with
  | one hs =>
    intro cnt cur he
    have : cur = cnt := by omega
    subst this
    exact repeat_passthrough (le_refl _) hs
  | more hs hrest ih =>
    intro cnt cur he
    have hn1 := chainRuns_pos hrest
    have hlt : cur < cnt := by omega
    exact runningSteps_trans_stepsTo (repeat_child_run hlt hs) (ih (by omega))

/-- C4: for every count `N ≥ 1` and every child behavior, `Repeat(N)`
(built with `current = 1`, `src/decor.rs` lines 92-99) run to completion
performs the child's full run — fresh state to terminal status, with a
reset in between — exactly `N` times: given any chain of `N` such child
runs taking `T` update calls in total, the decorated node runs for exactly
`T` calls, returning `Running` on every call but the last (so `Running` for
each of the first `N-1` child completions) and surfacing the `N`-th run's
terminal status unmodified on the last call; with `N = 1` this is a
transparent pass-through of the child's run. -/
theorem repeat_n_times {Ctx : Type} (N : Nat) (_hN : 1 ≤ N)
    {b : PBhv Ctx} {ctx : Ctx} {T : Nat} {bf : PBhv Ctx} {cf : Ctx} {s : Status}
    (h : ChainRuns N b ctx T bf cf s) :
    StepsTo (.repeatN N 1 b) ctx T (.repeatN N N bf) cf s :=
  repeat_chain h (by omega)

/-- C4 witness: `Repeat(2)` around a leaf that succeeds immediately and
increments the context — the two chained child runs take 2 calls total;
the decorated run takes exactly 2 calls, ends in `Success` with the
context incremented twice and the counter at 2. -/
theorem repeat_n_times_witness :
    StepsTo
      (PBhv.repeatN 2 1 (PBhv.node 0 (fun s (c : Nat) => (s, c + 1, Status.success)) (fun s _ => s))) 0 2
      (PBhv.repeatN 2 2 (PBhv.node 0 (fun s (c : Nat) => (s, c + 1, Status.success)) (fun s _ => s))) 2
      Status.success := by
  apply repeat_n_times 2 (by norm_num)
  have h1 : StepsTo (PBhv.node 0 (fun s (c : Nat) => (s, c + 1, Status.success)) (fun s _ => s)) 0 1
      (PBhv.node 0 (fun s (c : Nat) => (s, c + 1, Status.success)) (fun s _ => s)) 1 Status.success :=
    StepsTo.done (by simp [PBhv.update]) (by simp)
  have h2 : StepsTo (PBhv.node 0 (fun s (c : Nat) => (s, c + 1, Status.success)) (fun s _ => s)) 1 1
      (PBhv.node 0 (fun s (c : Nat) => (s, c + 1, Status.success)) (fun s _ => s)) 2 Status.success :=
    StepsTo.done (by simp [PBhv.update]) (by simp)
  have hreset : (PBhv.node 0 (fun s (c : Nat) => (s, c + 1, Status.success)) (fun s _ => s)).resetF Status.success
      = PBhv.node 0 (fun s (c : Nat) => (s, c + 1, Status.success)) (fun s _ => s) := by
    simp [PBhv.resetF]
  have h3 : ChainRuns 1 ((PBhv.node 0 (fun s (c : Nat) => (s, c + 1, Status.success)) (fun s _ => s)).resetF Status.success) 1 1
      (PBhv.node 0 (fun s (c : Nat) => (s, c + 1, Status.success)) (fun s _ => s)) 2 Status.success := by
    rw [hreset]
    exact ChainRuns.one h2
  have h4 := ChainRuns.more h1 h3
  simpa using h4

/-- C1: the spec's reactive end-to-end scenario FAILS on the code:
`Sequence([Action(i+=1), Action(i+=1), EventGate(Exit, Action(_))])`
(Exit = kind 1, the five other events kind 0, from `i = 0`) terminates with
overall `Success` on the FIRST non-Exit event, not on the Exit event:
`List::react`'s `take_while` scan stops in front of the uninterested
`WaitFor` gate and, the interested prefix being exhausted, returns
`Policy::STATUS` (= `Success`) — a terminal result — after both actions ran
(`i == 2`).  `execute` therefore consumes exactly 1 of the 6 events.  The
second conjunct shows the single `react` call on a kind-0 event returning
`Success` directly.  This contradicts the intent documented on `wait_for`
(`src/events_impl/bhv_ext.rs` lines 139-167), whose own example has the
gated child react on the later `Exit` event. -/
theorem reactive_seq_early_success :
    RBhv.execute
      (RBhv.seq [RBhv.node (fun _ => true) (fun _ (c : Nat) => (c + 1, Status.success)),
                 RBhv.node (fun _ => true) (fun _ (c : Nat) => (c + 1, Status.success)),
                 RBhv.waitFor 1 (RBhv.node (fun _ => true) (fun _ (c : Nat) => (c, Status.success)))])
      [0, 0, 0, 0, 0, 1] 0
      = some (2, some Status.success, 1) ∧
    RBhv.react
      (RBhv.seq [RBhv.node (fun _ => true) (fun _ (c : Nat) => (c + 1, Status.success)),
                 RBhv.node (fun _ => true) (fun _ (c : Nat) => (c + 1, Status.success)),
                 RBhv.waitFor 1 (RBhv.node (fun _ => true) (fun _ (c : Nat) => (c, Status.success)))])
      0 0
      = some (RBhv.seq [RBhv.node (fun _ => true) (fun _ (c : Nat) => (c + 1, Status.success)),
                 RBhv.node (fun _ => true) (fun _ (c : Nat) => (c + 1, Status.success)),
                 RBhv.waitFor 1 (RBhv.node (fun _ => true) (fun _ (c : Nat) => (c, Status.success)))],
              2, Status.success, []) := by
  constructor <;>
    simp [RBhv.execute, RBhv.react, RBhv.shouldReactTo, listReact]

/-- No `WaitFor` gate occurs on the decorator spine of this tree: the chain
of decorator wrappers from the root down to the first composite or leaf.
`react` of every decorator forwards to its child unconditionally, so only a
composite boundary (whose `take_while` re-checks `should_react_to`) or the
driver protects a gate below it. -/
def RBhv.noGateSpine {Ctx : Type} : RBhv Ctx → Bool
  | .waitFor _ _ => false
  | .inv b => b.noGateSpine
  | .pass b => b.noGateSpine
  | .fail b => b.noGateSpine
  | .repeatN _ _ b => b.noGateSpine
  | .repeatUntilPass b => b.noGateSpine
  | .repeatUntilFail b => b.noGateSpine
  | .node _ _ => true
  | .seq _ => true
  | .sel _ => true

mutual
/-- Every `WaitFor` gate in the tree is the outermost gate of its decorator
spine (no gate is nested under another gate through decorators only).
Nested gates are the configuration under which the engine leaks foreign
events to a gate (see the counterexample). -/
def RBhv.goodGates {Ctx : Type} : RBhv Ctx → Bool
  | .node _ _ => true
  | .inv b => b.goodGates
  | .pass b => b.goodGates
  | .fail b => b.goodGates
  | .repeatN _ _ b => b.goodGates
  | .repeatUntilPass b => b.goodGates
  | .repeatUntilFail b => b.goodGates
  | .waitFor _ b => b.noGateSpine && b.goodGates
  | .seq nodes => goodGatesList nodes
  | .sel nodes => goodGatesList nodes
  termination_by b => sizeOf b
def goodGatesList {Ctx : Type} : List (RBhv Ctx) → Bool
  | [] => true
  | n :: rest => n.goodGates && goodGatesList rest
  termination_by l => sizeOf l
end

/-- Unfolding equations of `listReact` for a cons child list, one per
outcome of the interest check / child reaction. -/
theorem listReact_cons_none {Ctx : Type} (policy : Status) (n : RBhv Ctx)
    (rest : List (RBhv Ctx)) (k : Nat) (ctx : Ctx)
    (hi : n.shouldReactTo k = none) :
    listReact policy (n :: rest) k ctx = none := by
  simp [listReact, hi]

theorem listReact_cons_uninterested {Ctx : Type} (policy : Status) (n : RBhv Ctx)
    (rest : List (RBhv Ctx)) (k : Nat) (ctx : Ctx)
    (hi : n.shouldReactTo k = some false) :
    listReact policy (n :: rest) k ctx = some (n :: rest, ctx, policy, []) := by
  simp [listReact, hi]

theorem listReact_cons_react_none {Ctx : Type} (policy : Status) (n : RBhv Ctx)
    (rest : List (RBhv Ctx)) (k : Nat) (ctx : Ctx)
    (hi : n.shouldReactTo k = some true) (hn : n.react k ctx = none) :
    listReact policy (n :: rest) k ctx = none := by
  simp [listReact, hi, hn]

theorem listReact_cons_continue {Ctx : Type} (policy : Status) (n : RBhv Ctx)
    (rest : List (RBhv Ctx)) (k : Nat) (ctx : Ctx)
    (rn : RBhv Ctx × Ctx × Status × List (Nat × Nat))
    (hi : n.shouldReactTo k = some true) (hn : n.react k ctx = some rn)
    (hs : rn.2.2.1 = policy) :
    listReact policy (n :: rest) k ctx
      = (listReact policy rest k rn.2.1).bind
          (fun g => some (rn.1 :: g.1, g.2.1, g.2.2.1, rn.2.2.2 ++ g.2.2.2)) := by
  rcases hrest : listReact policy rest k rn.2.1 with _ | g <;>
    simp [listReact, hi, hn, hs, hrest]

theorem listReact_cons_stop {Ctx : Type} (policy : Status) (n : RBhv Ctx)
    (rest : List (RBhv Ctx)) (k : Nat) (ctx : Ctx)
    (rn : RBhv Ctx × Ctx × Status × List (Nat × Nat))
    (hi : n.shouldReactTo k = some true) (hn : n.react k ctx = some rn)
    (hs : rn.2.2.1 ≠ policy) :
    listReact policy (n :: rest) k ctx = some (rn.1 :: rest, rn.2.1, rn.2.2.1, rn.2.2.2) := by
  simp [listReact, hi, hn, hs]

mutual
/-- Gate-kind soundness of reactive dispatch: in a tree whose gates are not
nested under other gates, if the event was admitted (the dispatched node's
`should_react_to` returned `true` — exactly what the driver and the
composite scan check before calling `react`), then every `WaitFor::react`
invocation that happens anywhere during the call is for the gate's own
kind. -/
theorem react_gates_ok {Ctx : Type} (t : RBhv Ctx) :
    ∀ (k : Nat) (ctx : Ctx) (r : RBhv Ctx × Ctx × Status × List (Nat × Nat)),
    t.goodGates = true →
    (t.noGateSpine = true ∨ t.shouldReactTo k = some true) →
    t.react k ctx = some r →
    ∀ p ∈ r.2.2.2, p.1 = k := by
  intro k ctx r hg hd hr
  match t with
  | .node i a =>
    simp only [RBhv.react, Option.some.injEq] at hr
    subst hr
    simp
  | .inv b =>
    simp only [RBhv.react, Option.map_eq_some'] at hr
    obtain ⟨rb, hrb, hmap⟩ := hr
    have hentries : r.2.2.2 = rb.2.2.2 := by rw [← hmap]
    rw [hentries]
    exact react_gates_ok b k ctx rb (by simpa [RBhv.goodGates] using hg)
      (by simpa [RBhv.noGateSpine, RBhv.shouldReactTo] using hd) hrb
  | .pass b =>
    simp only [RBhv.react, Option.map_eq_some'] at hr
    obtain ⟨rb, hrb, hmap⟩ := hr
    have hentries : r.2.2.2 = rb.2.2.2 := by rw [← hmap]
    rw [hentries]
    exact react_gates_ok b k ctx rb (by simpa [RBhv.goodGates] using hg)
      (by simpa [RBhv.noGateSpine, RBhv.shouldReactTo] using hd) hrb
  | .fail b =>
    simp only [RBhv.react, Option.map_eq_some'] at hr
    obtain ⟨rb, hrb, hmap⟩ := hr
    have hentries : r.2.2.2 = rb.2.2.2 := by rw [← hmap]
    rw [hentries]
    exact react_gates_ok b k ctx rb (by simpa [RBhv.goodGates] using hg)
      (by simpa [RBhv.noGateSpine, RBhv.shouldReactTo] using hd) hrb
  | .repeatUntilPass b =>
    simp only [RBhv.react, Option.map_eq_some'] at hr
    obtain ⟨rb, hrb, hmap⟩ := hr
    have hentries : r.2.2.2 = rb.2.2.2 := by rw [← hmap]
    rw [hentries]
    exact react_gates_ok b k ctx rb (by simpa [RBhv.goodGates] using hg)
      (by simpa [RBhv.noGateSpine, RBhv.shouldReactTo] using hd) hrb
  | .repeatUntilFail b =>
    simp only [RBhv.react, Option.map_eq_some'] at hr
    obtain ⟨rb, hrb, hmap⟩ := hr
    have hentries : r.2.2.2 = rb.2.2.2 := by rw [← hmap]
    rw [hentries]
    exact react_gates_ok b k ctx rb (by simpa [RBhv.goodGates] using hg)
      (by simpa [RBhv.noGateSpine, RBhv.shouldReactTo] using hd) hrb
  | .repeatN cnt cur b =>
    simp only [RBhv.react, Option.map_eq_some'] at hr
    obtain ⟨rb, hrb, hmap⟩ := hr
    have hentries : r.2.2.2 = rb.2.2.2 := by
      rw [← hmap]
      rcases rb with ⟨b1, c1, s1, tr1⟩
      cases s1 <;> simp
    rw [hentries]
    refine react_gates_ok b k ctx rb (by simpa [RBhv.goodGates] using hg) ?_ hrb
    rcases hd with hd | hd
    · exact Or.inl (by simpa [RBhv.noGateSpine] using hd)
    · simp only [RBhv.shouldReactTo] at hd
      by_cases hc : cur < cnt
      · rw [if_pos hc] at hd
        exact Or.inr hd
      · rw [if_neg hc] at hd
        simp at hd
  | .waitFor K b =>
    have hK : K = k := by
      rcases hd with hd | hd
      · simp [RBhv.noGateSpine] at hd
      · simp only [RBhv.shouldReactTo, Option.some.injEq] at hd
        simpa using hd
    simp only [RBhv.react, Option.map_eq_some'] at hr
    obtain ⟨rb, hrb, hmap⟩ := hr
    have hgb : b.noGateSpine = true ∧ b.goodGates = true := by
      simpa [RBhv.goodGates, Bool.and_eq_true] using hg
    have htail := react_gates_ok b k ctx rb hgb.2 (Or.inl hgb.1) hrb
    intro p hp
    rw [← hmap] at hp
    simp only [List.mem_cons] at hp
    rcases hp with hp | hp
    · rw [hp, hK]
    · exact htail p hp
  | .seq nodes =>
    simp only [RBhv.react, Option.map_eq_some'] at hr
    obtain ⟨rl, hrl, hmap⟩ := hr
    have hentries : r.2.2.2 = rl.2.2.2 := by rw [← hmap]
    rw [hentries]
    exact listReact_gates_ok nodes Status.success k ctx rl
      (by simpa [RBhv.goodGates] using hg) hrl
  | .sel nodes =>
    simp only [RBhv.react, Option.map_eq_some'] at hr
    obtain ⟨rl, hrl, hmap⟩ := hr
    have hentries : r.2.2.2 = rl.2.2.2 := by rw [← hmap]
    rw [hentries]
    exact listReact_gates_ok nodes Status.failure k ctx rl
      (by simpa [RBhv.goodGates] using hg) hrl
  termination_by sizeOf t

/-- List version of `react_gates_ok`: the composite scan checks each
child's interest before reacting it, so no admission hypothesis is
needed. -/
theorem listReact_gates_ok {Ctx : Type} (ns : List (RBhv Ctx)) :
    ∀ (policy : Status) (k : Nat) (ctx : Ctx)
      (r : List (RBhv Ctx) × Ctx × Status × List (Nat × Nat)),
    goodGatesList ns = true →
    listReact policy ns k ctx = some r →
    ∀ p ∈ r.2.2.2, p.1 = k := by
  intro policy k ctx r hg hr
  match ns with
  | [] =>
    simp only [listReact, Option.some.injEq] at hr
    subst hr
    simp
  | n :: rest =>
    have hgn : n.goodGates = true ∧ goodGatesList rest = true := by
      simpa [goodGatesList, Bool.and_eq_true] using hg
    rcases hi : n.shouldReactTo k with _ | i
    · rw [listReact_cons_none policy n rest k ctx hi] at hr
      exact absurd hr (by simp)
    · cases i
      · rw [listReact_cons_uninterested policy n rest k ctx hi] at hr
        obtain rfl := Option.some.inj hr
        simp
      · rcases hn : n.react k ctx with _ | rn
        · rw [listReact_cons_react_none policy n rest k ctx hi hn] at hr
          exact absurd hr (by simp)
        · have hhead := react_gates_ok n k ctx rn hgn.1 (Or.inr hi) hn
          by_cases hs : rn.2.2.1 = policy
          · rw [listReact_cons_continue policy n rest k ctx rn hi hn hs] at hr
            rcases hrest : listReact policy rest k rn.2.1 with _ | g
            · rw [hrest] at hr
              exact absurd hr (by simp)
            · rw [hrest] at hr
              simp only [Option.some_bind, Option.some.injEq] at hr
              subst hr
              have htail := listReact_gates_ok rest policy k rn.2.1 g hgn.2 hrest
              intro p hp
              simp only [List.mem_append] at hp
              rcases hp with hp | hp
              · exact hhead p hp
              · exact htail p hp
          · rw [listReact_cons_stop policy n rest k ctx rn hi hn hs] at hr
            obtain rfl := Option.some.inj hr
            intro p hp
            exact hhead p hp
  termination_by sizeOf ns
end

/-- Prefix blocking: a child whose `should_react_to` rejects the event
stops the composite scan — the scan of the whole list equals the scan of
the part before that child, with that child and everything after it
returned untouched, contributing no context change, no status and no
reactions. -/
theorem listReact_blocked {Ctx : Type} (policy : Status) :
    ∀ (pre : List (RBhv Ctx)) (g : RBhv Ctx) (suf : List (RBhv Ctx)) (k : Nat) (ctx : Ctx),
    g.shouldReactTo k = some false →
    listReact policy (pre ++ g :: suf) k ctx
      = (listReact policy pre k ctx).map (fun r => (r.1 ++ g :: suf, r.2)) := by
  intro pre
  induction pre with
  | nil =>
    intro g suf k ctx hg
    rw [List.nil_append, listReact_cons_uninterested policy g suf k ctx hg]
    simp [listReact]
  | cons n rest ih =>
    intro g suf k ctx hg
    rcases hi : n.shouldReactTo k with _ | i
    · rw [List.cons_append, listReact_cons_none policy n (rest ++ g :: suf) k ctx hi,
        listReact_cons_none policy n rest k ctx hi]
      rfl
    · cases i
      · rw [List.cons_append, listReact_cons_uninterested policy n (rest ++ g :: suf) k ctx hi,
          listReact_cons_uninterested policy n rest k ctx hi]
        simp
      · rcases hn : n.react k ctx with _ | rn
        · rw [List.cons_append, listReact_cons_react_none policy n (rest ++ g :: suf) k ctx hi hn,
            listReact_cons_react_none policy n rest k ctx hi hn]
          rfl
        · by_cases hs : rn.2.2.1 = policy
          · rw [List.cons_append, listReact_cons_continue policy n (rest ++ g :: suf) k ctx rn hi hn hs,
              listReact_cons_continue policy n rest k ctx rn hi hn hs, ih g suf k rn.2.1 hg]
            rcases hrest : listReact policy rest k rn.2.1 with _ | gg <;> simp
          · rw [List.cons_append, listReact_cons_stop policy n (rest ++ g :: suf) k ctx rn hi hn hs,
              listReact_cons_stop policy n rest k ctx rn hi hn hs]
            simp

/-- C6, counterexample: a gate nested directly under another gate DOES have
`react` invoked for an event of a different kind.  `WaitFor::react`
forwards unconditionally, so `WaitFor(1, WaitFor(2, action))` driven by an
event of kind 1 (admitted by the outer gate, also via the `execute`
driver) invokes the inner gate's `react` — trace entry `(2, 1)`, gate kind
2 ≠ event kind 1 — and the gated action runs (`ctx` 0 → 1). -/
theorem nested_gate_gets_foreign_event :
    RBhv.react (RBhv.waitFor 1 (RBhv.waitFor 2 (RBhv.node (fun _ => true) (fun _ (c : Nat) => (c + 1, Status.success))))) 1 0
      = some (RBhv.waitFor 1 (RBhv.waitFor 2 (RBhv.node (fun _ => true) (fun _ (c : Nat) => (c + 1, Status.success)))), 1, Status.success, [(1, 1), (2, 1)]) ∧
    RBhv.execute (RBhv.waitFor 1 (RBhv.waitFor 2 (RBhv.node (fun _ => true) (fun _ (c : Nat) => (c + 1, Status.success))))) [1] 0
      = some (1, some Status.success, 1) := by
  constructor <;> simp [RBhv.react, RBhv.execute, RBhv.shouldReactTo]

/-- C6, amended: (1) in any reactive tree in which no gate is nested under
another gate through a decorator-only chain, a node gated on kind `K`
never has `react` invoked for an event whose kind differs from `K`,
whenever the event is dispatched after the engine's admission check (the
`should_react_to` test performed by the `execute` driver and by the
composite scan); (2) unconditionally, in a composite child list, a gated
node at position `i` whose kind does not match the event blocks the scan:
nodes at positions `> i` are not offered the event in that call (the whole
call equals the scan of the first `i` children with the tail untouched). -/
theorem gated_dispatch_amended :
    (∀ {Ctx : Type} (t : RBhv Ctx) (k : Nat) (ctx : Ctx)
        (r : RBhv Ctx × Ctx × Status × List (Nat × Nat)),
      t.goodGates = true → t.shouldReactTo k = some true →
      t.react k ctx = some r → ∀ p ∈ r.2.2.2, p.1 = k) ∧
    (∀ {Ctx : Type} (policy : Status) (pre suf : List (RBhv Ctx)) (K k : Nat) (b : RBhv Ctx)
        (ctx : Ctx), K ≠ k →
      listReact policy (pre ++ .waitFor K b :: suf) k ctx
        = (listReact policy pre k ctx).map (fun r => (r.1 ++ .waitFor K b :: suf, r.2))) := by
  constructor
  · intro Ctx t k ctx r hg hi hr
    exact react_gates_ok t k ctx r hg (Or.inr hi) hr
  · intro Ctx policy pre suf K k b ctx hK
    refine listReact_blocked policy pre (.waitFor K b) suf k ctx ?_
    simp [RBhv.shouldReactTo, hK]

/-- C6 witness: part (1) at a single matching gate over an action (trace
`[(5, 5)]`, all entries of the event's kind); part (2) at a list
`[action, WaitFor(3, action)]` scanned with an event of kind 7. -/
theorem gated_dispatch_amended_witness :
    Prod.fst ((5 : Nat), (5 : Nat)) = 5 ∧
    listReact Status.success
        ([RBhv.node (fun _ => true) (fun _ (c : Nat) => (c, Status.success))] ++
          RBhv.waitFor 3 (RBhv.node (fun _ => true) (fun _ (c : Nat) => (c, Status.success))) :: [])
        7 0
      = (listReact Status.success [RBhv.node (fun _ => true) (fun _ (c : Nat) => (c, Status.success))] 7 0).map
          (fun r => (r.1 ++ RBhv.waitFor 3 (RBhv.node (fun _ => true) (fun _ (c : Nat) => (c, Status.success))) :: [], r.2)) := by
  constructor
  · exact gated_dispatch_amended.1
      (RBhv.waitFor 5 (RBhv.node (fun _ => true) (fun _ (c : Nat) => (c + 1, Status.success)))) 5 0
      (RBhv.waitFor 5 (RBhv.node (fun _ => true) (fun _ (c : Nat) => (c + 1, Status.success))), 1, Status.success, [(5, 5)])
      (by simp [RBhv.goodGates, RBhv.noGateSpine])
      (by simp [RBhv.shouldReactTo])
      (by simp [RBhv.react])
      ((5 : Nat), (5 : Nat)) (by simp)
  · exact gated_dispatch_amended.2 Status.success
      [RBhv.node (fun _ => true) (fun _ (c : Nat) => (c, Status.success))] []
      3 7 (RBhv.node (fun _ => true) (fun _ (c : Nat) => (c, Status.success))) 0 (by norm_num)
